import Mathlib

/-!  Verification of the expense-tracker PDF transaction-extraction core
     against its design specification.

     The Python source (src/services/pdf_parser.py, src/core/constants.py)
     is shallowly embedded: raw PDF cells are optional strings, tables are
     lists of rows, machine floats are modelled as exact rationals, and the
     external page/table geometry extraction (pdfplumber) is modelled as
     input data, exactly as the specification treats it (an external
     capability the core only ranks and consumes). -/

namespace ExpParser

/-- A raw PDF table cell: pdfplumber yields a string or None. -/
abbrev Cell := Option String

/-- A raw table row. -/
abbrev Row := List Cell

/-- A raw candidate table: list of rows, first row may or may not be a header. -/
abbrev RawTable := List Row

/-- One page, as the list of candidate tables pdfplumber finds on it. -/
abbrev Page := List RawTable

/-- Python str.strip on a character list: trim whitespace at both ends. -/
def stripChars (cs : List Char) : List Char :=
  ((cs.dropWhile Char.isWhitespace).reverse.dropWhile Char.isWhitespace).reverse

/-- The group separators that may appear in VND amounts. -/
def isSepChar (c : Char) : Bool := c = '.' || c = ','

/-- Characters kept by the cleaning step of _parse_vnd_amount (line 59):
    digits, the two separators, and the minus sign. -/
def isKeptChar (c : Char) : Bool := c.isDigit || c = '.' || c = ',' || c = '-'

/-- Numeric value of a decimal digit list, most significant digit first. -/
def digitsVal (cs : List Char) : Nat :=
  cs.foldl (fun a c => a * 10 + (c.toNat - 48)) 0

/-- Characters the decimal regex of _parse_vnd_amount allows before the
    final separator: digits or separators. -/
def isDecPreChar (c : Char) : Bool := c.isDigit || isSepChar c

/-- The decimal-shape test of _parse_vnd_amount (line 61): the cleaned
    string matches the anchored pattern "digits-or-separators, then one
    separator, then one or two trailing digits". -/
def decMatch (cs : List Char) : Bool :=
  match cs.reverse with
  | d1 :: c :: rest =>
    d1.isDigit &&
      ((isSepChar c && rest.all isDecPreChar) ||
        (match rest with
         | c2 :: rest2 => c.isDigit && isSepChar c2 && rest2.all isDecPreChar
         | [] => false))
  | _ => false

/-- Python float() restricted to the digit/dot/dash strings this parser ever
    feeds it: optional integer digits, an optional single dot, optional
    fraction digits, at least one digit overall.  Anything else (empty
    string, stray dash, second dot) raises ValueError, modelled as none. -/
def floatLit (cs : List Char) : Option ℚ :=
  match cs.dropWhile (fun c => c ≠ '.') with
  | [] => if cs ≠ [] && cs.all Char.isDigit then some ((digitsVal cs : ℚ)) else none
  | _ :: suf =>
    let pre := cs.takeWhile (fun c => c ≠ '.')
    if (pre ≠ [] || suf ≠ []) && pre.all Char.isDigit && suf.all Char.isDigit then
      some (mkRat (digitsVal pre * 10 ^ suf.length + digitsVal suf) (10 ^ suf.length))
    else none

/-- The Python values _parse_vnd_amount can receive: None, NaN, an int, a
    float, or a string. -/
inductive PyVal where
  | noneV
  | nanV
  | intV (n : ℤ)
  | floatV (q : ℚ)
  | strV (s : String)
deriving DecidableEq

/-- Thousands-separator tail of _parse_vnd_amount (lines 67-73): strip every
    separator and parse the remaining digits; ValueError yields 0.0. -/
def thousandsPath (cs : List Char) (negative : Bool) : ℚ :=
  match floatLit (cs.filter (fun c => !(isSepChar c))) with
  | some v => if negative then -v else v
  | none => 0

/-- The decimal-or-thousands dispatch of _parse_vnd_amount (lines 60-73) on
    the cleaned character list, with the sign already detected. -/
def parseVndStrCleaned (cs : List Char) (negative : Bool) : ℚ :=
  if decMatch cs && (cs.count '.' + cs.count ',' == 1) then
    match floatLit (cs.map (fun c => if c = ',' then '.' else c)) with
    | some v => if negative then -v else v
    | none => thousandsPath cs negative
  else thousandsPath cs negative

/-- _parse_vnd_amount (pdf_parser.py lines 46-73), the Field Normalizer's
    normalizeAmount: strip, detect the leading minus, keep only digits,
    separators and dashes, drop the leading dashes, then dispatch. -/
def parseVndAmount : PyVal → ℚ
  | .noneV => 0
  | .nanV => 0
  | .intV n => (n : ℚ)
  | .floatV q => q
  | .strV s0 =>
    if stripChars s0.data = [] then 0
    else
      parseVndStrCleaned
        (((stripChars s0.data).filter isKeptChar).dropWhile (fun c => c = '-'))
        (decide ((stripChars s0.data).head? = some '-'))

/-! ## Date parsing (_parse_date, lines 76-101) -/

/-- A calendar date as produced by pd.Timestamp(year=..., month=..., day=...). -/
structure DateT where
  year : Nat
  month : Nat
  day : Nat
deriving DecidableEq

/-- Gregorian leap year. -/
def isLeap (y : Nat) : Bool := (y % 4 == 0 && y % 100 != 0) || y % 400 == 0

/-- Days in a month of the Gregorian calendar (0 for an invalid month). -/
def daysInMonth (y m : Nat) : Nat :=
  if m == 1 || m == 3 || m == 5 || m == 7 || m == 8 || m == 10 || m == 12 then 31
  else if m == 4 || m == 6 || m == 9 || m == 11 then 30
  else if m == 2 then (if isLeap y then 29 else 28)
  else 0

/-- Whether pd.Timestamp(year=y, month=m, day=d) succeeds: a valid calendar
    date within the nanosecond-Timestamp range (1677-09-22 .. 2262-04-11 for
    midnight timestamps); outside it ValueError/OutOfBoundsDatetime is
    raised. -/
def dateLe (y1 m1 d1 y2 m2 d2 : Nat) : Bool :=
  y1 < y2 || (y1 == y2 && (m1 < m2 || (m1 == m2 && d1 ≤ d2)))

def timestampOk (y m d : Nat) : Bool :=
  1 ≤ m && m ≤ 12 && 1 ≤ d && d ≤ daysInMonth y m &&
    dateLe 1677 9 22 y m d && dateLe y m d 2262 4 11

/-- Take exactly n leading digits of cs: Some (value, rest) when the first n
    characters exist and are digits. -/
def tryNum (cs : List Char) (n : Nat) : Option (Nat × List Char) :=
  if (cs.take n).length == n && (cs.take n).all Char.isDigit then
    some (digitsVal (cs.take n), cs.drop n)
  else none

/-- Consume one date separator, slash or dash. -/
def trySep : List Char → Option (List Char)
  | c :: t => if c = '/' || c = '-' then some t else none
  | [] => none

/-- The year group \d{2,4}, greedy: four, then three, then two digits. -/
def matchYear (r : List Char) : Option Nat :=
  ((tryNum r 4).orElse (fun _ => (tryNum r 3).orElse (fun _ => tryNum r 2))).map
    Prod.fst

/-- The middle group and year: (\d{1,2})[/\-](\d{2,4}), greedy with
    backtracking. -/
def matchG2 (r : List Char) : Option (Nat × Nat) :=
  ((tryNum r 2).bind (fun p => (trySep p.2).bind
    (fun r3 => (matchYear r3).map (fun y => (p.1, y))))).orElse
  (fun _ => (tryNum r 1).bind (fun p => (trySep p.2).bind
    (fun r3 => (matchYear r3).map (fun y => (p.1, y)))))

/-- The regex (\d{1,2})[/\-](\d{1,2})[/\-](\d{2,4}) matched at the start of
    the string (re.match), with the captured numeric groups; greedy with
    backtracking, so two-digit groups are preferred. -/
def matchDatePrefix (cs : List Char) : Option (Nat × Nat × Nat) :=
  ((tryNum cs 2).bind (fun p => (trySep p.2).bind
    (fun r2 => (matchG2 r2).map (fun q => (p.1, q.1, q.2))))).orElse
  (fun _ => (tryNum cs 1).bind (fun p => (trySep p.2).bind
    (fun r2 => (matchG2 r2).map (fun q => (p.1, q.1, q.2)))))

/-- _parse_date on a string value (lines 83-101).  The general-parser
    fallback pd.to_datetime (line 98) is an external library capability and
    is passed in as a parameter fb, applied to the original string. -/
def parseDateStr (fb : String → Option DateT) (dayFirst : Bool) (s0 : String) :
    Option DateT :=
  let s := stripChars s0.data
  if s = [] then none
  else
    match matchDatePrefix s with
    | some (g1, g2, y0) =>
      let y := if y0 < 100 then y0 + 2000 else y0
      let d := if dayFirst then g1 else g2
      let mo := if dayFirst then g2 else g1
      if timestampOk y mo d then some ⟨y, mo, d⟩ else none
    | none => fb s0

/-- _parse_date on a DataFrame cell: NaN (absent column entry) and None both
    short-circuit to None before any string handling. -/
def parseDateCell (fb : String → Option DateT) (dayFirst : Bool) :
    Option Cell → Option DateT
  | none => none
  | some none => none
  | some (some s) => parseDateStr fb dayFirst s

/-! ## Header normalization and resolution (lines 20-150) -/

/-- Python str.lower restricted to the characters that actually occur in
    the alias tables and the statements' headers: ASCII letters plus the
    precomposed Vietnamese capitals. -/
def charLowerPy (c : Char) : Char :=
  if c = 'Đ' then 'đ'
  else if c = 'À' then 'à' else if c = 'Á' then 'á' else if c = 'Ả' then 'ả'
  else if c = 'Ã' then 'ã' else if c = 'Ạ' then 'ạ' else if c = 'Â' then 'â'
  else if c = 'Ă' then 'ă' else if c = 'È' then 'è' else if c = 'É' then 'é'
  else if c = 'Ê' then 'ê' else if c = 'Ì' then 'ì' else if c = 'Í' then 'í'
  else if c = 'Ị' then 'ị' else if c = 'Ò' then 'ò' else if c = 'Ó' then 'ó'
  else if c = 'Ô' then 'ô' else if c = 'Ơ' then 'ơ' else if c = 'Ù' then 'ù'
  else if c = 'Ú' then 'ú' else if c = 'Ư' then 'ư' else if c = 'Ý' then 'ý'
  else if c = 'Ợ' then 'ợ' else if c = 'Ớ' then 'ớ' else if c = 'Ễ' then 'ễ'
  else c.toLower

/-- Collapse every maximal run of whitespace to a single space
    (re.sub of one-or-more whitespace with a space). -/
def collapseWs : List Char → List Char
  | [] => []
  | [c] => if c.isWhitespace then [' '] else [c]
  | c :: d :: t =>
    if c.isWhitespace then
      if d.isWhitespace then collapseWs (d :: t)
      else ' ' :: collapseWs (d :: t)
    else c :: collapseWs (d :: t)

/-- _normalize_header (lines 38-43): None or blank goes to the empty string,
    otherwise strip, lowercase, collapse internal whitespace. -/
def normalizeHeader : Cell → List Char
  | none => []
  | some h =>
    let t := stripChars h.data
    if t = [] then [] else collapseWs (t.map charLowerPy)

/-- List-of-characters substring test (Python in-operator on str). -/
def hasSubstring (a : List Char) : List Char → Bool
  | [] => a.isEmpty
  | c :: t => a.isPrefixOf (c :: t) || hasSubstring a t

def DATE_ALIASES : List String :=
  ["date", "ngày", "ngay", "ngày giao dịch", "transaction date"]

def DESC_ALIASES : List String :=
  ["description", "nội dung", "noi dung", "diễn giải", "dien giai", "details",
   "chi tiết", "chi tiet", "content"]

def REMITTER_ALIASES : List String :=
  ["remitter", "đối tác", "doi tac", "partner", "người chuyển", "nguoi chuyen"]

def REMITTER_BANK_INDICATORS : List String :=
  ["remitter bank", "nh đối tác", "nh doi tac", "ngân hàng đối tác",
   "ngan hang doi tac"]

def DEBIT_ALIASES : List String :=
  ["debit", "ghi nợ", "ghi no", "số tiền ghi nợ", "outflow", "phát sinh nợ",
   "phat sinh no", "ghi nợ (vnđ)", "nợ tktt"]

def CREDIT_ALIASES : List String :=
  ["credit", "ghi có", "ghi co", "số tiền ghi có", "inflow", "phát sinh có",
   "phat sinh co", "ghi có (vnđ)", "có tktt"]

/-- _is_remitter_bank_header (lines 29-31). -/
def isRemitterBankHeader (n : List Char) : Bool :=
  REMITTER_BANK_INDICATORS.any (fun ind => hasSubstring ind.data n)

/-- The alias families in the fixed priority order of _map_headers. -/
def stdFamilies : List (List String × String) :=
  [(DATE_ALIASES, "Date"), (DESC_ALIASES, "Description"),
   (REMITTER_ALIASES, "Remitter"), (DEBIT_ALIASES, "Debit"),
   (CREDIT_ALIASES, "Credit")]

/-- The inner loop of _map_headers (lines 111-122): first alias family
    containing the normalized text wins; a Remitter match that is really a
    Remitter-Bank header falls through to the next family. -/
def findStd (n : List Char) : List (List String × String) → Option String
  | [] => none
  | (aliases, std) :: rest =>
    if aliases.any (fun a => hasSubstring a.data n) then
      if std = "Remitter" && isRemitterBankHeader n then findStd n rest
      else some std
    else findStd n rest

/-- A ColumnMap: insertion-ordered map from column index to canonical field
    name, mirroring the Python dict with int keys. -/
abbrev ColMap := List (Nat × String)

/-- _map_headers (lines 104-123). -/
def mapHeaders (headers : Row) : ColMap :=
  headers.enum.filterMap (fun p =>
    let n := normalizeHeader p.2
    if n = [] then none else (findStd n stdFamilies).map (fun std => (p.1, std)))

/-- _fallback_column_map (lines 126-144): positional Date, Description,
    Debit, Credit for however many columns exist. -/
def fallbackColumnMap (headers : Row) : ColMap :=
  if headers = [] then []
  else
    ([(0, "Date"), (1, "Description"), (2, "Debit"), (3, "Credit")].filter
      (fun p => p.1 < headers.length))

/-- _transaction_map_complete (lines 147-150): the map covers Date and
    Debit. -/
def transactionMapComplete (m : ColMap) : Bool :=
  (m.map Prod.snd).contains "Date" && (m.map Prod.snd).contains "Debit"

/-- _first_row_looks_like_data (lines 153-158): the row is nonempty, its
    first cell truthy, and the stripped first cell starts date-shaped. -/
def firstRowLooksLikeData (headers : Row) : Bool :=
  match headers with
  | [] => false
  | none :: _ => false
  | some s :: _ =>
    if s = "" then false
    else (matchDatePrefix (stripChars s.data)).isSome

/-! ## Table Selector (_looks_like_header_row, _score_table_as_transactions,
    _extract_table_from_page; lines 161-228) -/

/-- One cell counts as numeric in _looks_like_header_row: non-None, its
    stripped text nonempty and fully matching the class of digits,
    separators, whitespace and dashes. -/
def isNumericCell : Cell → Bool
  | none => false
  | some s =>
    let t := stripChars s.data
    !t.isEmpty && t.all (fun c => c.isDigit || c = '.' || c = ',' || c.isWhitespace || c = '-')

/-- _looks_like_header_row (lines 161-172): at most half the cells numeric. -/
def looksLikeHeaderRow (row : Row) : Bool :=
  match row with
  | [] => false
  | _ => (row.filter isNumericCell).length ≤ row.length / 2

/-- _score_table_as_transactions (lines 175-195).  The source sums the
    float constants 10.0, 5.0 or 2.0, and 0.5 per capped data row; every
    term is a multiple of one half, so the sum is carried as one exact
    rational with denominator 2 (each constant doubled in the
    numerator). -/
def scoreTable (t : RawTable) : ℚ :=
  if t.length < 2 then 0
  else if (t.headD []).length < 2 then 0
  else
    mkRat ((if looksLikeHeaderRow (t.headD []) then 20 else 0) +
      (if (t.headD []).length ≥ 3 then 10 else if (t.headD []).length ≥ 2 then 4 else 0) +
      min (t.length - 1) 20) 2

/-- Lexicographic strict comparison of (row count, column count), Python
    tuple comparison. -/
def sizeLt (a b : Nat × Nat) : Bool :=
  a.1 < b.1 || (a.1 == b.1 && a.2 < b.2)

/-- The selection loop of _extract_table_from_page (lines 213-227), with the
    four accumulators best_table, best_score, fallback_table,
    fallback_size. -/
def selectGo : List RawTable → RawTable → ℚ → RawTable → Nat × Nat →
    RawTable × ℚ × RawTable × (Nat × Nat)
  | [], bt, bs, ft, fs => (bt, bs, ft, fs)
  | t :: ts, bt, bs, ft, fs =>
    if t.length < 2 then selectGo ts bt bs ft fs
    else if (t.headD []).length < 2 then selectGo ts bt bs ft fs
    else
      selectGo ts
        (if bs < scoreTable t then t else bt)
        (if bs < scoreTable t then scoreTable t else bs)
        (if sizeLt fs (t.length, (t.headD []).length) then t else ft)
        (if sizeLt fs (t.length, (t.headD []).length)
          then (t.length, (t.headD []).length) else fs)

/-- _extract_table_from_page (lines 198-228), the Table Selector's
    extractBestTable: operates on the page's candidate tables. -/
def extractTableFromPage (tables : Page) : RawTable :=
  if tables = [] then []
  else
    let r := selectGo tables [] 0 [] (0, 0)
    if r.1 ≠ [] then r.1 else r.2.2.1

/-! ## Row assembly (_table_to_rows, lines 231-252) -/

/-- A row dictionary: insertion-ordered Python dict from canonical field
    name to the raw cell. -/
abbrev RowDict := List (String × Cell)

/-- Python dict assignment: update in place if the key exists, else append. -/
def dictSet (l : RowDict) (k : String) (v : Cell) : RowDict :=
  match l with
  | [] => [(k, v)]
  | (k1, v1) :: t => if k1 = k then (k, v) :: t else (k1, v1) :: dictSet t k v

/-- Python dict lookup returning the value if the key is present. -/
def dictGet (l : RowDict) (k : String) : Option Cell :=
  match l with
  | [] => none
  | (k1, v1) :: t => if k1 = k then some v1 else dictGet t k

/-- The body of _table_to_rows for one data row: pad to the header length,
    then emit each mapped cell under its canonical name. -/
def rowToDict (colMap : ColMap) (ncols : Nat) (r : Row) : RowDict :=
  let rPadded := (r ++ List.replicate (ncols - r.length) none).take ncols
  colMap.foldl (fun row p =>
    if p.1 < rPadded.length && p.2 ≠ "" then dictSet row p.2 (rPadded.getD p.1 none)
    else row) []

/-- _table_to_rows (lines 231-252): rows after the first, skipping falsy
    rows and row dicts that stayed empty. -/
def tableToRows (rawTable : RawTable) (colMap : ColMap) : List RowDict :=
  if rawTable = [] || colMap = [] then []
  else
    let ncols := (rawTable.headD []).length
    (rawTable.tail.filterMap (fun r =>
      if r = [] then none
      else
        let row := rowToDict colMap ncols r
        if row = [] then none else some row))

/-! ## Page-sequence assembly (extract_transactions_from_pdf, lines 255-331) -/

/-- Restriction of the previous column map to indices below ncols
    (lines 283 and 289). -/
def restrictMap (m : ColMap) (ncols : Nat) : ColMap :=
  m.filter (fun p => p.1 < ncols)

/-- Fresh header resolution (line 285): _map_headers, falling back to
    _fallback_column_map when it finds nothing. -/
def freshMap (headers : Row) : ColMap :=
  let m := mapHeaders headers
  if m = [] then fallbackColumnMap headers else m

/-- The per-page column-map decision (lines 280-289).  The previous map is
    an Option; Python additionally treats an empty dict as falsy, hence the
    explicit nonemptiness conjunct. -/
def pageColMap (last : Option ColMap) (headers : Row) : ColMap :=
  match last with
  | some lm =>
    if lm ≠ [] ∧ headers.length ≥ lm.length ∧ firstRowLooksLikeData headers = true then
      restrictMap lm headers.length
    else if lm ≠ [] ∧ headers.length ≥ lm.length ∧
        ¬ transactionMapComplete (freshMap headers) = true then
      restrictMap lm headers.length
    else freshMap headers
  | none => freshMap headers

/-- One iteration of the page loop (lines 274-294): returns the updated
    last-column-map state and the row dicts the page contributed. -/
def pageStep (last : Option ColMap) (page : Page) : Option ColMap × List RowDict :=
  let raw := extractTableFromPage page
  if raw = [] then (last, [])
  else
    let headers := raw.headD []
    let colMap := pageColMap last headers
    if colMap = [] || !transactionMapComplete colMap then (last, [])
    else (some colMap, tableToRows raw colMap)

/-- The whole page loop, threading the last-column-map state. -/
def processPages (last : Option ColMap) : List Page → List RowDict
  | [] => []
  | p :: ps =>
    let r := pageStep last p
    r.2 ++ processPages r.1 ps

/-- TRANSACTION_COLUMNS (src/core/constants.py line 6). -/
def TRANSACTION_COLUMNS : List String :=
  ["Date", "Description", "Debit", "Credit", "SourceType"]

/-- A row after field normalization (lines 321-326), before the final
    column selection: the DataFrame still carries a Remitter column here. -/
structure NormalizedRow where
  date : Option DateT
  description : String
  remitter : String
  debit : ℚ
  credit : ℚ
deriving DecidableEq

/-- A row of the returned TransactionTable, carrying exactly the
    TRANSACTION_COLUMNS fields. -/
structure CanonicalRow where
  date : Option DateT
  description : String
  debit : ℚ
  credit : ℚ
  sourceType : String
deriving DecidableEq

/-- The unit exchanged with collaborators: an explicit column list (the
    DataFrame's column order) plus the rows. -/
structure TransactionTable where
  columns : List String
  rows : List CanonicalRow
deriving DecidableEq

/-- The _str_col lambda (line 324): NaN, None and the literal strings
    nan/none (stripped, lowercased) become empty; other strings pass
    through unchanged. -/
def strCol : Option Cell → String
  | none => ""
  | some none => ""
  | some (some s) =>
    if (stripChars s.data).map charLowerPy = "nan".data ∨
        (stripChars s.data).map charLowerPy = "none".data then ""
    else s

/-- _parse_vnd_amount applied to a DataFrame cell: an absent column entry
    is NaN, a None cell is None, a string cell is a string. -/
def amountOfCell : Option Cell → ℚ
  | none => parseVndAmount .nanV
  | some none => parseVndAmount .noneV
  | some (some s) => parseVndAmount (.strV s)

/-- Field normalization of one assembled row dict (lines 321-326). -/
def normalizeRow (fb : String → Option DateT) (dayFirst : Bool) (d : RowDict) :
    NormalizedRow where
  date := parseDateCell fb dayFirst (dictGet d "Date")
  description := strCol (dictGet d "Description")
  remitter := strCol (dictGet d "Remitter")
  debit := amountOfCell (dictGet d "Debit")
  credit := amountOfCell (dictGet d "Credit")

/-- The final column selection df[list(TRANSACTION_COLUMNS)] (line 331):
    stamps SourceType and drops every other column, Remitter included. -/
def selectColumns (sourceType : String) (r : NormalizedRow) : CanonicalRow where
  date := r.date
  description := r.description
  debit := r.debit
  credit := r.credit
  sourceType := sourceType

deriving instance DecidableEq for Except

/-- A raised Python exception: its type name and its str() message. -/
structure PyError where
  typeName : String
  message : String
deriving DecidableEq

/-- A document handed to the parser: either not a bytes object at all
    (carrying the Python type name), or bytes content together with the
    result of the external pdfplumber open-and-iterate call on it (which
    may itself raise). -/
inductive PdfDoc where
  | notBytes (typeName : String)
  | pdfBytes (content : List Nat) (opened : Except PyError (List Page))

/-- extract_transactions_from_pdf (lines 255-331).  The Except models the
    raising paths: TypeError/ValueError validation plus any error the
    external page iteration raises. -/
def extractTransactionsFromPdf (fb : String → Option DateT) (doc : PdfDoc)
    (sourceType : String) (dayFirst : Bool) : Except PyError TransactionTable :=
  match doc with
  | .notBytes tn =>
    .error ⟨"TypeError", "pdf_bytes must be bytes, got " ++ tn⟩
  | .pdfBytes content opened =>
    if content = [] then .error ⟨"ValueError", "pdf_bytes must not be empty"⟩
    else
      match opened with
      | .error e => .error e
      | .ok pages =>
        let allRows := processPages none pages
        .ok ⟨TRANSACTION_COLUMNS,
          ((allRows.map (normalizeRow fb dayFirst)).filter
            (fun r => r.debit ≠ 0)).map (selectColumns sourceType)⟩

/-! ## Batch Loader (load_pdfs_to_dataframe, lines 334-371) -/

/-- pandas drop_duplicates with keep equal to first over the full row:
    keep each row the first time its value tuple is seen. -/
def dropDupGo (seen : List CanonicalRow) : List CanonicalRow → List CanonicalRow
  | [] => []
  | r :: t => if r ∈ seen then dropDupGo seen t else r :: dropDupGo (r :: seen) t

/-- Whole-row deduplication keeping first occurrences.  The subset used by
    the source (line 369) is every TRANSACTION_COLUMNS column present in
    the merged frame, which is exactly the full CanonicalRow tuple. -/
def dropDuplicates (l : List CanonicalRow) : List CanonicalRow :=
  dropDupGo [] l

/-- The failure message of the except-branch (line 361): str(e).strip(),
    or the exception's type name when that is empty. -/
def errMsg (e : PyError) : String :=
  if stripChars e.message.data = [] then e.typeName
  else ⟨stripChars e.message.data⟩

/-- The Python type name of the batch item's first component. -/
def docTypeName : PdfDoc → String
  | .notBytes tn => tn
  | .pdfBytes _ _ => "bytes"

/-- The loop body of load_pdfs_to_dataframe (lines 348-364) for one
    document, producing either its nonempty row list or a failure
    message. -/
def loadStep (fb : String → Option DateT) (f : PdfDoc × String) :
    Except String (List CanonicalRow) :=
  match f.1 with
  | .notBytes tn => .error ("Invalid or empty file (got " ++ tn ++ ")")
  | .pdfBytes [] _ => .error "Invalid or empty file (got bytes)"
  | .pdfBytes (b :: bs) opened =>
    match extractTransactionsFromPdf fb (.pdfBytes (b :: bs) opened) f.2 true with
    | .error e => .error (errMsg e)
    | .ok df =>
      if df.rows = [] then .error "No transaction table found or no debit rows in this PDF"
      else .ok df.rows

/-- The document loop: collect the nonempty row lists and the indexed
    failures, in input order. -/
def loadGo (fb : String → Option DateT) (i : Nat) :
    List (PdfDoc × String) → List (List CanonicalRow) × List (Nat × String)
  | [] => ([], [])
  | f :: fs =>
    let rest := loadGo fb (i + 1) fs
    match loadStep fb f with
    | .error m => (rest.1, (i, m) :: rest.2)
    | .ok rows => (rows :: rest.1, rest.2)

/-- load_pdfs_to_dataframe (lines 334-371). -/
def loadPdfsToDataframe (fb : String → Option DateT)
    (files : List (PdfDoc × String)) (deduplicate : Bool) :
    TransactionTable × List (Nat × String) :=
  if files.isEmpty then (⟨TRANSACTION_COLUMNS, []⟩, [])
  else
    let r := loadGo fb 0 files
    if r.1 = [] then (⟨TRANSACTION_COLUMNS, []⟩, r.2)
    else
      let out := r.1.flatten
      let out2 := if deduplicate && !out.isEmpty then dropDuplicates out else out
      (⟨TRANSACTION_COLUMNS, out2⟩, r.2)

/-! ## Specification-side definitions

    These phrase conditions the way the specification states them, to be
    compared with the source-derived definitions above. -/

/-- The specification's date-shape condition, as written: the string starts
    with one-or-two digits, a slash or dash, one-or-two digits, a slash or
    dash, and two-to-four digits. -/
def dateShapedSpec (cs : List Char) : Prop :=
  ∃ (a b y rest : List Char) (c1 c2 : Char),
    cs = a ++ c1 :: (b ++ c2 :: (y ++ rest)) ∧
    1 ≤ a.length ∧ a.length ≤ 2 ∧ a.all Char.isDigit = true ∧
    (c1 = '/' ∨ c1 = '-') ∧
    1 ≤ b.length ∧ b.length ≤ 2 ∧ b.all Char.isDigit = true ∧
    (c2 = '/' ∨ c2 = '-') ∧
    2 ≤ y.length ∧ y.length ≤ 4 ∧ y.all Char.isDigit = true

/-- The specification's continuation condition on a page's first row: the
    row exists, its first cell is a truthy string, and that cell, stripped,
    is date-shaped. -/
def firstCellDateShaped (headers : Row) : Prop :=
  ∃ s : String, headers.head? = some (some s) ∧ s ≠ "" ∧
    dateShapedSpec (stripChars s.data)

/-- The cleaned amount string of the specification: every character other
    than digits, dots, commas and dashes stripped, and (as the code's sign
    handling does) the leading dashes removed. -/
def cleanedAmount (s : String) : List Char :=
  ((stripChars s.data).filter isKeptChar).dropWhile (fun c => c = '-')

/-- Well-formed amount strings, the scope of the specification's amount
    dichotomy: after cleaning, only digits and separators remain (no
    interior dash) and at least one digit is present. -/
def wellFormedAmount (s : String) : Prop :=
  (cleanedAmount s).all (fun c => c.isDigit || isSepChar c) = true ∧
    (cleanedAmount s).any Char.isDigit = true

instance (s : String) : Decidable (wellFormedAmount s) :=
  inferInstanceAs (Decidable
    ((cleanedAmount s).all (fun c => c.isDigit || isSepChar c) = true ∧
      (cleanedAmount s).any Char.isDigit = true))

/-- The specification's decimal condition: exactly one separator overall,
    and that separator is followed by one or two trailing digits. -/
def decimalShapeSpec (cs : List Char) : Prop :=
  cs.count '.' + cs.count ',' = 1 ∧
    ∃ (pre suf : List Char) (c : Char), cs = pre ++ c :: suf ∧
      isSepChar c = true ∧ suf ≠ [] ∧ suf.length ≤ 2 ∧ suf.all Char.isDigit = true

/-- The decimal value the specification prescribes: digits before the
    separator, plus the trailing digits scaled down. -/
def decimalValueSpec (cs : List Char) : ℚ :=
  let pre := cs.takeWhile (fun c => !isSepChar c)
  let suf := (cs.dropWhile (fun c => !isSepChar c)).tail
  (digitsVal pre : ℚ) + (digitsVal suf : ℚ) / (10 : ℚ) ^ suf.length

/-- The thousands-stripped integer value the specification prescribes. -/
def strippedIntValueSpec (cs : List Char) : ℚ :=
  (digitsVal (cs.filter (fun c => !isSepChar c)) : ℚ)

/-- The sign the specification prescribes: a leading dash negates. -/
def signOf (s : String) : ℚ :=
  if (stripChars s.data).head? = some '-' then -1 else 1

/-- The admission test of the Table Selector, as the specification states
    it: at least 2 rows and at least 2 columns in the first row. -/
def admissibleTable (t : RawTable) : Prop :=
  2 ≤ t.length ∧ 2 ≤ (t.headD []).length

/-! ## Concrete inputs used by the witnesses and counter-evaluations -/

/-- A fallback general date parser that recognizes nothing; the documents
    below never reach it. -/
def fbNone : String → Option DateT := fun _ => none

/-- Page 1 of the specification's end-to-end two-page document: recognized
    Vietnamese header plus one data row. -/
def pageOne : Page :=
  [[[some "Ngày giao dịch", some "Đối tác", some "Diễn giải", some "Nợ TKTT",
     some "Có TKTT"],
    [some "01/12/2025", some "Partner A", some "Payment 1", some "100,000",
     some ""]]]

/-- Page 2: a continuation page holding two data-only rows with date-leading
    first cells and five columns. -/
def pageTwo : Page :=
  [[[some "02/12/2025", some "Partner B", some "Payment 2", some "200,000",
     some ""],
    [some "03/12/2025", some "Partner C", some "Payment 3", some "300,000",
     some ""]]]

/-- The two-page document itself, with well-formed one-byte content. -/
def contDoc : PdfDoc := .pdfBytes [37] (.ok [pageOne, pageTwo])

/-- A single-page, single-transaction document. -/
def oneTxnDoc : PdfDoc :=
  .pdfBytes [37]
    (.ok [[[[some "Date", some "Description", some "Debit"],
            [some "05/11/2025", some "Coffee", some "45,000"]]]])

/-- A document whose binary content is empty. -/
def emptyDoc : PdfDoc := .pdfBytes [] (.ok [])

/-- A 2-row, 2-column candidate table. -/
def smallTable : RawTable :=
  [[some "Fee", some "Amount"], [some "Service", some "10,000"]]

/-- A 6-row, 4-column header-shaped candidate table. -/
def bigTable : RawTable :=
  [[some "Date", some "Description", some "Debit", some "Credit"],
   [some "01/12/2025", some "A", some "100,000", some ""],
   [some "02/12/2025", some "B", some "200,000", some ""],
   [some "03/12/2025", some "C", some "300,000", some ""],
   [some "04/12/2025", some "D", some "400,000", some ""],
   [some "05/12/2025", some "E", some "500,000", some ""]]

/-! ## Helper lemmas -/

theorem dropDupGo_cons_mem {seen : List CanonicalRow} {x : CanonicalRow}
    (t : List CanonicalRow) (h : x ∈ seen) :
    dropDupGo seen (x :: t) = dropDupGo seen t := by
  rw [dropDupGo, if_pos h]

theorem dropDupGo_cons_not_mem {seen : List CanonicalRow} {x : CanonicalRow}
    (t : List CanonicalRow) (h : x ∉ seen) :
    dropDupGo seen (x :: t) = x :: dropDupGo (x :: seen) t := by
  rw [dropDupGo, if_neg h]

theorem dropDupGo_mem (l : List CanonicalRow) :
    ∀ (seen : List CanonicalRow) (r : CanonicalRow),
      r ∈ dropDupGo seen l ↔ r ∈ l ∧ r ∉ seen := by
  induction l with
  | nil => intro seen r; simp [dropDupGo]
  | cons x t ih =>
    intro seen r
    by_cases hx : x ∈ seen
    · rw [dropDupGo_cons_mem t hx, ih]
      simp only [List.mem_cons]
      constructor
      · exact fun h => ⟨Or.inr h.1, h.2⟩
      · rintro ⟨rfl | h1, h2⟩
        · exact absurd hx h2
        · exact ⟨h1, h2⟩
    · rw [dropDupGo_cons_not_mem t hx]
      simp only [List.mem_cons, ih]
      constructor
      · rintro (rfl | ⟨h1, h2⟩)
        · exact ⟨Or.inl rfl, hx⟩
        · exact ⟨Or.inr h1, fun hc => h2 (Or.inr hc)⟩
      · rintro ⟨rfl | h1, h2⟩
        · exact Or.inl rfl
        · by_cases hrx : r = x
          · exact Or.inl hrx
          · exact Or.inr ⟨h1, fun hc => hc.elim hrx h2⟩

theorem dropDupGo_nodup (l : List CanonicalRow) :
    ∀ seen : List CanonicalRow, (dropDupGo seen l).Nodup := by
  induction l with
  | nil => intro seen; simp [dropDupGo]
  | cons x t ih =>
    intro seen
    by_cases hx : x ∈ seen
    · rw [dropDupGo_cons_mem t hx]; exact ih seen
    · rw [dropDupGo_cons_not_mem t hx]
      refine List.Nodup.cons ?_ (ih (x :: seen))
      intro hc
      exact ((dropDupGo_mem t (x :: seen) x).mp hc).2 (List.mem_cons_self x seen)

theorem dropDupGo_nil_of_mem (l : List CanonicalRow) :
    ∀ seen : List CanonicalRow, (∀ a ∈ l, a ∈ seen) → dropDupGo seen l = [] := by
  induction l with
  | nil => intro seen _; rfl
  | cons x t ih =>
    intro seen h
    rw [dropDupGo_cons_mem t (h x (List.mem_cons_self x t))]
    exact ih seen fun a ha => h a (List.mem_cons_of_mem _ ha)

theorem dropDupGo_append (ys : List CanonicalRow) :
    ∀ xs seen : List CanonicalRow, ∃ s2 : List CanonicalRow,
      dropDupGo seen (xs ++ ys) = dropDupGo seen xs ++ dropDupGo s2 ys ∧
        ∀ a, a ∈ s2 ↔ a ∈ xs ∨ a ∈ seen := by
  intro xs
  induction xs with
  | nil => intro seen; exact ⟨seen, by simp [dropDupGo]⟩
  | cons x t ih =>
    intro seen
    by_cases hx : x ∈ seen
    · obtain ⟨s2, h1, h2⟩ := ih seen
      refine ⟨s2, ?_, ?_⟩
      · rw [List.cons_append, dropDupGo_cons_mem _ hx, dropDupGo_cons_mem t hx]
        exact h1
      · intro a
        rw [h2 a]
        constructor
        · rintro (h | h)
          · exact Or.inl (List.mem_cons_of_mem _ h)
          · exact Or.inr h
        · rintro (h | h)
          · rcases List.mem_cons.mp h with rfl | h
            · exact Or.inr hx
            · exact Or.inl h
          · exact Or.inr h
    · obtain ⟨s2, h1, h2⟩ := ih (x :: seen)
      refine ⟨s2, ?_, ?_⟩
      · rw [List.cons_append, dropDupGo_cons_not_mem _ hx,
          dropDupGo_cons_not_mem t hx, List.cons_append, h1]
      · intro a
        rw [h2 a]
        simp [List.mem_cons, or_assoc, or_comm (a := a = x)]

theorem dropDuplicates_append_self (l : List CanonicalRow) :
    dropDuplicates (l ++ l) = dropDuplicates l := by
  obtain ⟨s2, h1, h2⟩ := dropDupGo_append l l []
  rw [dropDuplicates, h1, dropDupGo_nil_of_mem l s2 (fun a ha => (h2 a).mpr (by simp [ha]))]
  simp [dropDuplicates]

theorem loadStep_ok_ne_nil (fb : String → Option DateT) (f : PdfDoc × String)
    (rows : List CanonicalRow) (h : loadStep fb f = .ok rows) : rows ≠ [] := by
  obtain ⟨doc, st⟩ := f
  cases doc with
  | notBytes tn => simp [loadStep] at h
  | pdfBytes content opened =>
    cases content with
    | nil => simp [loadStep] at h
    | cons b bs =>
      simp only [loadStep] at h
      split at h
      · exact absurd h (by simp)
      · split at h
        · exact absurd h (by simp)
        · rename_i hdf
          injection h with h2
          exact h2 ▸ hdf

theorem loadGo_failures (fb : String → Option DateT) :
    ∀ (fs : List (PdfDoc × String)) (i : Nat),
      (loadGo fb i fs).2 = (List.enumFrom i fs).filterMap
        (fun p => match loadStep fb p.2 with
          | .error m => some (p.1, m)
          | .ok _ => none) := by
  intro fs
  induction fs with
  | nil => intro i; rfl
  | cons f t ih =>
    intro i
    rcases hs : loadStep fb f with m | rows
    · simp [loadGo, hs, List.enumFrom, ih (i + 1)]
    · simp [loadGo, hs, List.enumFrom, ih (i + 1)]

theorem loadGo_rows (fb : String → Option DateT) :
    ∀ (fs : List (PdfDoc × String)) (i : Nat),
      (loadGo fb i fs).1 = fs.filterMap
        (fun f => match loadStep fb f with
          | .ok rows => some rows
          | .error _ => none) := by
  intro fs
  induction fs with
  | nil => intro i; rfl
  | cons f t ih =>
    intro i
    rcases hs : loadStep fb f with m | rows
    · simp [loadGo, hs, ih (i + 1)]
    · simp [loadGo, hs, ih (i + 1)]

theorem flatten_filterMap_ok (fb : String → Option DateT) :
    ∀ fs : List (PdfDoc × String),
      (fs.filterMap (fun f => match loadStep fb f with
        | .ok rows => some rows
        | .error _ => none)).flatten =
      (fs.map (fun f => match loadStep fb f with
        | .ok rows => rows
        | .error _ => [])).flatten := by
  intro fs
  induction fs with
  | nil => rfl
  | cons f t ih =>
    rcases hs : loadStep fb f with m | rows
    · simp [hs, ih]
    · simp [hs, ih]

/-- load_pdfs_to_dataframe in closed form: the empty-input and
    all-failed special cases of the source collapse into the one
    expression. -/
theorem loadPdfs_eq (fb : String → Option DateT) (files : List (PdfDoc × String))
    (dedup : Bool) :
    loadPdfsToDataframe fb files dedup =
      (⟨TRANSACTION_COLUMNS,
        (let all := (loadGo fb 0 files).1.flatten
         if dedup && !all.isEmpty then dropDuplicates all else all)⟩,
       (loadGo fb 0 files).2) := by
  cases files with
  | nil => simp [loadPdfsToDataframe, loadGo]
  | cons f t =>
    simp only [loadPdfsToDataframe, List.isEmpty_cons, Bool.false_eq_true,
      if_false]
    by_cases hr : (loadGo fb 0 (f :: t)).1 = []
    · simp [hr]
    · simp [hr]

/-- The whole batch loop, uncoiled: each document contributes its failure
    entry or its rows independently of the other documents. -/
theorem load_spec (fb : String → Option DateT) (files : List (PdfDoc × String))
    (dedup : Bool) :
    (loadPdfsToDataframe fb files dedup).2 = files.enum.filterMap
      (fun p => match loadStep fb p.2 with
        | .error m => some (p.1, m)
        | .ok _ => none) ∧
    (loadPdfsToDataframe fb files dedup).1.rows =
      (let all := (files.map (fun f => match loadStep fb f with
         | .ok rows => rows
         | .error _ => [])).flatten
       if dedup && !all.isEmpty then dropDuplicates all else all) := by
  rw [loadPdfs_eq]
  constructor
  · exact loadGo_failures fb files 0
  · have hall : (loadGo fb 0 files).1.flatten =
        (files.map (fun f => match loadStep fb f with
          | .ok rows => rows
          | .error _ => [])).flatten := by
      rw [loadGo_rows fb files 0, flatten_filterMap_ok fb]
    simp only [hall]

/-! ## Claim theorems -/

/-- C10: called with an empty document list, load_pdfs_to_dataframe returns
    an empty table that still carries the full canonical column set
    (Date, Description, Debit, Credit, SourceType) and an empty failure
    list, with no per-document processing. -/
theorem c10_empty_batch (dedup : Bool) (fb : String → Option DateT) :
    loadPdfsToDataframe fb [] dedup = (⟨TRANSACTION_COLUMNS, []⟩, []) ∧
      TRANSACTION_COLUMNS = ["Date", "Description", "Debit", "Credit", "SourceType"] :=
  ⟨rfl, rfl⟩

/-- C1 (counter-evaluation): on the specification's end-to-end two-page
    document — page 1 a recognized Vietnamese header plus one data row,
    page 2 a continuation page with two data-only rows — the code returns a
    2-row table, not 3: _table_to_rows always skips row 0 of the page's
    table, so the continuation page's first data row (02/12/2025,
    Payment 2) is silently dropped. -/
theorem c1_continuation_first_data_row_dropped :
    extractTransactionsFromPdf fbNone contDoc "checking" true =
      .ok ⟨TRANSACTION_COLUMNS,
        [⟨some ⟨2025, 12, 1⟩, "Payment 1", 100000, 0, "checking"⟩,
         ⟨some ⟨2025, 12, 3⟩, "Payment 3", 300000, 0, "checking"⟩]⟩ ∧
    (extractTransactionsFromPdf fbNone contDoc "checking" true).toOption.map
      (fun t => t.rows.length) = some 2 ∧
    (⟨some ⟨2025, 12, 2⟩, "Payment 2", 200000, 0, "checking"⟩ : CanonicalRow) ∉
      [(⟨some ⟨2025, 12, 1⟩, "Payment 1", 100000, 0, "checking"⟩ : CanonicalRow),
       ⟨some ⟨2025, 12, 3⟩, "Payment 3", 300000, 0, "checking"⟩] := by
  refine ⟨by decide, by decide, by decide⟩

/-- C2 (counter-evaluation): TRANSACTION_COLUMNS as defined in
    src/core/constants.py has five entries and no Remitter, so the table
    returned by extract_transactions_from_pdf (and by
    load_pdfs_to_dataframe) carries no Remitter column — contradicting the
    claimed six-column schema (and the repository's own
    tests/unit/test_constants.py, which asserts six columns with Remitter
    at index 2). -/
theorem c2_remitter_column_missing :
    TRANSACTION_COLUMNS = ["Date", "Description", "Debit", "Credit", "SourceType"] ∧
    "Remitter" ∉ TRANSACTION_COLUMNS ∧
    TRANSACTION_COLUMNS ≠
      ["Date", "Description", "Remitter", "Debit", "Credit", "SourceType"] ∧
    (extractTransactionsFromPdf fbNone oneTxnDoc "checking" true).toOption.map
      TransactionTable.columns = some TRANSACTION_COLUMNS ∧
    (loadPdfsToDataframe fbNone [(oneTxnDoc, "checking")] true).1.columns =
      TRANSACTION_COLUMNS := by
  refine ⟨rfl, by decide, by decide, by decide, by decide⟩

/-- C7: every row of a TransactionTable returned by
    extract_transactions_from_pdf has nonzero Debit: the zero-Debit filter
    (line 329) runs after normalization and before the table is returned. -/
theorem c7_returned_rows_have_nonzero_debit (fb : String → Option DateT)
    (doc : PdfDoc) (st : String) (dayFirst : Bool) (tt : TransactionTable)
    (h : extractTransactionsFromPdf fb doc st dayFirst = .ok tt) :
    ∀ r ∈ tt.rows, r.debit ≠ 0 := by
  cases doc with
  | notBytes tn => simp [extractTransactionsFromPdf] at h
  | pdfBytes content opened =>
    cases content with
    | nil => simp [extractTransactionsFromPdf] at h
    | cons b bs =>
      cases opened with
      | error e => simp [extractTransactionsFromPdf] at h
      | ok pages =>
        simp only [extractTransactionsFromPdf, List.cons_ne_nil, if_neg,
          reduceCtorEq, reduceIte] at h
        cases h
        intro r hr
        obtain ⟨n, hn, rfl⟩ := List.mem_map.mp hr
        have := (List.mem_filter.mp hn).2
        simpa [selectColumns] using of_decide_eq_true this

/-- C7 witness: the theorem applied to the concrete one-transaction
    document. -/
theorem c7_witness :
    (⟨some ⟨2025, 11, 5⟩, "Coffee", 45000, 0, "checking"⟩ : CanonicalRow).debit ≠ 0 :=
  c7_returned_rows_have_nonzero_debit fbNone oneTxnDoc "checking" true
    ⟨TRANSACTION_COLUMNS,
      [⟨some ⟨2025, 11, 5⟩, "Coffee", 45000, 0, "checking"⟩]⟩ (by decide)
    ⟨some ⟨2025, 11, 5⟩, "Coffee", 45000, 0, "checking"⟩ (by decide)

/-- C9: deduplication removes exactly the rows whose full canonical tuple
    was already seen (whole-row equality, since the merged frame carries
    exactly the TRANSACTION_COLUMNS fields and no Remitter), keeping first
    occurrences; consequently loading the same document twice with
    deduplicate on yields the very same rows — in particular the same row
    count — as loading it once. -/
theorem c9_dedup_double_load (fb : String → Option DateT) (doc : PdfDoc)
    (st : String) :
    (loadPdfsToDataframe fb [(doc, st), (doc, st)] true).1.rows =
      (loadPdfsToDataframe fb [(doc, st)] true).1.rows ∧
    (loadPdfsToDataframe fb [(doc, st), (doc, st)] true).1.rows.length =
      (loadPdfsToDataframe fb [(doc, st)] true).1.rows.length ∧
    ∀ l : List CanonicalRow, (dropDuplicates l).Nodup ∧
      ∀ r : CanonicalRow, r ∈ dropDuplicates l ↔ r ∈ l := by
  have hmain : (loadPdfsToDataframe fb [(doc, st), (doc, st)] true).1.rows =
      (loadPdfsToDataframe fb [(doc, st)] true).1.rows := by
    rw [(load_spec fb [(doc, st), (doc, st)] true).2,
      (load_spec fb [(doc, st)] true).2]
    rcases hs : loadStep fb (doc, st) with m | rows
    · simp [hs]
    · have hne : rows ≠ [] := loadStep_ok_ne_nil fb (doc, st) rows hs
      simp [hs, hne, dropDuplicates_append_self rows]
  refine ⟨hmain, by rw [hmain], fun l => ⟨dropDupGo_nodup l [], fun r => ?_⟩⟩
  rw [dropDuplicates, dropDupGo_mem]
  simp

/-- C8: load_pdfs_to_dataframe never raises; each document is classified
    independently, in input-index order: a failing document contributes
    exactly the one failure entry its loop body produces (for a raised
    error, the stripped message or the error's type name when that is
    empty, via errMsg) and the other documents' rows are still merged and
    returned.  The batch's failure list and row list are exactly the
    per-document outcomes recomposed; the concrete two-document example
    shows the empty document failing at index 0 while the valid document's
    row survives. -/
theorem c8_batch_failure_isolation (fb : String → Option DateT)
    (files : List (PdfDoc × String)) (dedup : Bool) :
    ((loadPdfsToDataframe fb files dedup).2 = files.enum.filterMap
      (fun p => match loadStep fb p.2 with
        | .error m => some (p.1, m)
        | .ok _ => none)) ∧
    ((loadPdfsToDataframe fb files dedup).1.rows =
      (let all := (files.map (fun f => match loadStep fb f with
         | .ok rows => rows
         | .error _ => [])).flatten
       if dedup && !all.isEmpty then dropDuplicates all else all)) ∧
    (∀ (b : Nat) (bs : List Nat) (e : PyError) (st : String),
      loadStep fb (.pdfBytes (b :: bs) (.error e), st) = .error (errMsg e)) ∧
    (∀ (tn : String) (st : String),
      loadStep fb (.notBytes tn, st) =
        .error ("Invalid or empty file (got " ++ tn ++ ")")) ∧
    (loadPdfsToDataframe fbNone [(emptyDoc, "checking"), (oneTxnDoc, "checking")] true =
      (⟨TRANSACTION_COLUMNS,
        [⟨some ⟨2025, 11, 5⟩, "Coffee", 45000, 0, "checking"⟩]⟩,
       [(0, "Invalid or empty file (got bytes)")])) := by
  refine ⟨(load_spec fb files dedup).1, (load_spec fb files dedup).2, ?_, ?_, by decide⟩
  · intro b bs e st
    rfl
  · intro tn st
    rfl

/-! ## Table Selector lemmas -/

theorem scoreTable_zero_of_not_admissible (t : RawTable)
    (h : ¬ admissibleTable t) : scoreTable t = 0 := by
  rw [admissibleTable, not_and_or] at h
  rcases h with h | h
  · rw [scoreTable, if_pos (by omega)]
  · by_cases h2 : t.length < 2
    · rw [scoreTable, if_pos h2]
    · rw [scoreTable, if_neg h2, if_pos (by omega)]

theorem scoreTable_pos_of_admissible (t : RawTable)
    (h : admissibleTable t) : 0 < scoreTable t := by
  obtain ⟨h1, h2⟩ := h
  rw [scoreTable, if_neg (by omega), if_neg (by omega), Rat.mkRat_eq_div]
  apply div_pos _ (by norm_num)
  have hpos : 0 < (if looksLikeHeaderRow (t.headD []) = true then 20 else 0) +
      (if (t.headD []).length ≥ 3 then 10 else if (t.headD []).length ≥ 2 then 4 else 0) +
      min (t.length - 1) 20 := by
    split <;> split <;> omega
  exact_mod_cast hpos

theorem admissible_of_scoreTable_pos (t : RawTable)
    (h : 0 < scoreTable t) : admissibleTable t := by
  by_contra hc
  rw [scoreTable_zero_of_not_admissible t hc] at h
  exact lt_irrefl 0 h

/-- Invariant of the selection loop: the best score only grows, it
    dominates every admissible table seen, the best table is the initial
    one or an admissible member whose score it carries, and the fallback is
    the initial one or an admissible member. -/
theorem selectGo_spec (ts : List RawTable) :
    ∀ (bt : RawTable) (bs : ℚ) (ft : RawTable) (fs : Nat × Nat),
      bs ≤ (selectGo ts bt bs ft fs).2.1 ∧
      (∀ t ∈ ts, admissibleTable t → scoreTable t ≤ (selectGo ts bt bs ft fs).2.1) ∧
      (((selectGo ts bt bs ft fs).1 = bt ∧ (selectGo ts bt bs ft fs).2.1 = bs) ∨
        ((selectGo ts bt bs ft fs).1 ∈ ts ∧ admissibleTable (selectGo ts bt bs ft fs).1 ∧
          scoreTable (selectGo ts bt bs ft fs).1 = (selectGo ts bt bs ft fs).2.1)) ∧
      ((selectGo ts bt bs ft fs).2.2.1 = ft ∨
        ((selectGo ts bt bs ft fs).2.2.1 ∈ ts ∧
          admissibleTable (selectGo ts bt bs ft fs).2.2.1)) := by
  induction ts with
  | nil =>
    intro bt bs ft fs
    exact ⟨le_refl bs, by simp, Or.inl ⟨rfl, rfl⟩, Or.inl rfl⟩
  | cons t ts ih =>
    intro bt bs ft fs
    by_cases h1 : t.length < 2
    · rw [selectGo, if_pos h1]
      obtain ⟨ha, hb, hc, hd⟩ := ih bt bs ft fs
      refine ⟨ha, ?_, ?_, ?_⟩
      · intro u hu hadm
        rcases List.mem_cons.mp hu with rfl | hu
        · exact absurd hadm (by rw [admissibleTable]; omega)
        · exact hb u hu hadm
      · rcases hc with h | ⟨hm, hadm, hsc⟩
        · exact Or.inl h
        · exact Or.inr ⟨List.mem_cons_of_mem _ hm, hadm, hsc⟩
      · rcases hd with h | ⟨hm, hadm⟩
        · exact Or.inl h
        · exact Or.inr ⟨List.mem_cons_of_mem _ hm, hadm⟩
    · by_cases h2 : (t.headD []).length < 2
      · rw [selectGo, if_neg h1, if_pos h2]
        obtain ⟨ha, hb, hc, hd⟩ := ih bt bs ft fs
        refine ⟨ha, ?_, ?_, ?_⟩
        · intro u hu hadm
          rcases List.mem_cons.mp hu with rfl | hu
          · exact absurd hadm (by rw [admissibleTable]; omega)
          · exact hb u hu hadm
        · rcases hc with h | ⟨hm, hadm, hsc⟩
          · exact Or.inl h
          · exact Or.inr ⟨List.mem_cons_of_mem _ hm, hadm, hsc⟩
        · rcases hd with h | ⟨hm, hadm⟩
          · exact Or.inl h
          · exact Or.inr ⟨List.mem_cons_of_mem _ hm, hadm⟩
      · have hadm : admissibleTable t := ⟨by omega, by omega⟩
        rw [selectGo, if_neg h1, if_neg h2]
        generalize hbt1 : (if bs < scoreTable t then t else bt) = bt1
        generalize hbs1 : (if bs < scoreTable t then scoreTable t else bs) = bs1
        generalize hft1 :
          (if sizeLt fs (t.length, (t.headD []).length) = true then t else ft) = ft1
        generalize hfs1 : (if sizeLt fs (t.length, (t.headD []).length) = true
          then (t.length, (t.headD []).length) else fs) = fs1
        obtain ⟨ha, hb, hc, hd⟩ := ih bt1 bs1 ft1 fs1
        have hbs_le : bs ≤ bs1 := by
          rw [← hbs1]
          split
          · next h => exact le_of_lt h
          · next => exact le_refl bs
        have hsc_le : scoreTable t ≤ bs1 := by
          rw [← hbs1]
          split
          · next => exact le_refl _
          · next h => exact le_of_not_lt h
        have hbt_cases : bt1 = t ∧ bs1 = scoreTable t ∨ bt1 = bt ∧ bs1 = bs := by
          rw [← hbt1, ← hbs1]
          by_cases hlt : bs < scoreTable t
          · rw [if_pos hlt, if_pos hlt]; exact Or.inl ⟨rfl, rfl⟩
          · rw [if_neg hlt, if_neg hlt]; exact Or.inr ⟨rfl, rfl⟩
        have hft_cases : ft1 = t ∨ ft1 = ft := by
          rw [← hft1]
          split
          · exact Or.inl rfl
          · exact Or.inr rfl
        refine ⟨le_trans hbs_le ha, ?_, ?_, ?_⟩
        · intro u hu hadmu
          rcases List.mem_cons.mp hu with rfl | hu
          · exact le_trans hsc_le ha
          · exact hb u hu hadmu
        · rcases hc with ⟨he, hf⟩ | ⟨hm, hadm2, hsc⟩
          · rcases hbt_cases with ⟨hx, hy⟩ | ⟨hx, hy⟩
            · refine Or.inr ⟨?_, ?_, ?_⟩
              · rw [he, hx]; exact List.mem_cons_self t ts
              · rw [he, hx]; exact hadm
              · rw [he, hf, hx, hy]
            · exact Or.inl ⟨by rw [he, hx], by rw [hf, hy]⟩
          · exact Or.inr ⟨List.mem_cons_of_mem _ hm, hadm2, hsc⟩
        · rcases hd with he | ⟨hm, hadm2⟩
          · rcases hft_cases with hx | hx
            · refine Or.inr ⟨?_, ?_⟩
              · rw [he, hx]; exact List.mem_cons_self t ts
              · rw [he, hx]; exact hadm
            · exact Or.inl (by rw [he, hx])
          · exact Or.inr ⟨List.mem_cons_of_mem _ hm, hadm2⟩

/-- C6: the Table Selector discards tables with fewer than 2 rows or fewer
    than 2 columns in the first row; whenever some candidate scores above
    zero it returns an admitted candidate carrying the maximal
    _score_table_as_transactions score; when no candidate is admitted it
    returns the empty table; and on the spec's concrete pair — one
    2-row/2-column table, one 6-row/4-column header-shaped table — it
    returns the 4-column table. -/
theorem c6_extract_best_table :
    (∀ tables : Page, extractTableFromPage tables = [] ∨
      (extractTableFromPage tables ∈ tables ∧
        admissibleTable (extractTableFromPage tables))) ∧
    (∀ tables : Page, (∃ t ∈ tables, 0 < scoreTable t) →
      extractTableFromPage tables ∈ tables ∧
        ∀ t ∈ tables, scoreTable t ≤ scoreTable (extractTableFromPage tables)) ∧
    (∀ tables : Page, (∀ t ∈ tables, ¬ admissibleTable t) →
      extractTableFromPage tables = []) ∧
    (extractTableFromPage [smallTable, bigTable] = bigTable ∧
      smallTable.length = 2 ∧ (smallTable.headD []).length = 2 ∧
      bigTable.length = 6 ∧ (bigTable.headD []).length = 4 ∧
      looksLikeHeaderRow (bigTable.headD []) = true) := by
  have hmain : ∀ tables : Page, extractTableFromPage tables = [] ∨
      (extractTableFromPage tables ∈ tables ∧
        admissibleTable (extractTableFromPage tables)) := by
    intro tables
    by_cases hemp : tables = []
    · subst hemp; exact Or.inl rfl
    · rw [extractTableFromPage, if_neg hemp]
      obtain ⟨ha, hb, hc, hd⟩ := selectGo_spec tables [] 0 [] (0, 0)
      by_cases hbt : (selectGo tables [] 0 [] (0, 0)).1 ≠ []
      · rw [if_pos hbt]
        rcases hc with ⟨he, _⟩ | ⟨hm, hadm, _⟩
        · exact absurd he hbt
        · exact Or.inr ⟨hm, hadm⟩
      · rw [if_neg hbt]
        rcases hd with he | ⟨hm, hadm⟩
        · rw [he]; exact Or.inl rfl
        · exact Or.inr ⟨hm, hadm⟩
  refine ⟨hmain, ?_, ?_, by decide, by decide, by decide, by decide, by decide, by decide⟩
  · intro tables ⟨t0, ht0, hpos⟩
    have hemp : tables ≠ [] := fun hc => by subst hc; exact absurd ht0 (by simp)
    obtain ⟨ha, hb, hc, hd⟩ := selectGo_spec tables [] 0 [] (0, 0)
    have hdom := hb t0 ht0 (admissible_of_scoreTable_pos t0 hpos)
    have hbs_pos : 0 < (selectGo tables [] 0 [] (0, 0)).2.1 := lt_of_lt_of_le hpos hdom
    rcases hc with ⟨he, hf⟩ | ⟨hm, hadm, hsc⟩
    · rw [hf] at hbs_pos; exact absurd hbs_pos (lt_irrefl 0)
    · have hne : (selectGo tables [] 0 [] (0, 0)).1 ≠ [] := by
        intro hnil
        have := hadm.1
        rw [hnil] at this
        simp at this
      have hres : extractTableFromPage tables = (selectGo tables [] 0 [] (0, 0)).1 := by
        rw [extractTableFromPage, if_neg hemp, if_pos hne]
      rw [hres, hsc]
      refine ⟨hm, fun u hu => ?_⟩
      by_cases hadmu : admissibleTable u
      · exact hb u hu hadmu
      · rw [scoreTable_zero_of_not_admissible u hadmu]
        exact le_of_lt hbs_pos
  · intro tables hnone
    rcases hmain tables with h | ⟨hm, hadm⟩
    · exact h
    · exact absurd hadm (hnone _ hm)

/-- C6 witness: the first conjuncts applied to the concrete candidate
    pair. -/
theorem c6_witness :
    extractTableFromPage [smallTable, bigTable] ∈ [smallTable, bigTable] ∧
      scoreTable smallTable ≤ scoreTable (extractTableFromPage [smallTable, bigTable]) :=
  ⟨(c6_extract_best_table.2.1 [smallTable, bigTable]
      ⟨bigTable, by decide, by decide⟩).1,
   (c6_extract_best_table.2.1 [smallTable, bigTable]
      ⟨bigTable, by decide, by decide⟩).2 smallTable (by decide)⟩

/-! ## Date-regex lemmas -/

theorem isSome_orElse {α : Type} (a : Option α) (b : Unit → Option α) :
    (a.orElse b).isSome = true ↔ a.isSome = true ∨ (b ()).isSome = true := by
  cases a <;> simp [Option.orElse]

theorem isSome_bind {α β : Type} (o : Option α) (f : α → Option β) :
    (o.bind f).isSome = true ↔ ∃ a, o = some a ∧ (f a).isSome = true := by
  cases o <;> simp

theorem isSome_map {α β : Type} (o : Option α) (f : α → β) :
    ((o.map f).isSome) = o.isSome := by
  cases o <;> rfl

theorem tryNum_eq_some (cs : List Char) (n : Nat) (p : Nat × List Char)
    (h : tryNum cs n = some p) :
    ∃ d : List Char, cs = d ++ p.2 ∧ d.length = n ∧ d.all Char.isDigit = true ∧
      p.1 = digitsVal d := by
  rw [tryNum] at h
  split at h
  · next hcond =>
    rw [Bool.and_eq_true] at hcond
    obtain ⟨hlen, hdig⟩ := hcond
    injection h with hp
    refine ⟨cs.take n, ?_, by simpa using hlen, hdig, ?_⟩
    · rw [← hp]; exact (List.take_append_drop n cs).symm
    · rw [← hp]
  · cases h

theorem tryNum_of_pre (d r : List Char) (n : Nat) (hlen : d.length = n)
    (hdig : d.all Char.isDigit = true) :
    tryNum (d ++ r) n = some (digitsVal d, r) := by
  have htake : (d ++ r).take n = d := by rw [← hlen]; exact List.take_left d r
  have hdrop : (d ++ r).drop n = r := by rw [← hlen]; exact List.drop_left d r
  rw [tryNum, htake, hdrop, if_pos (by simp [hlen, hdig])]

theorem trySep_eq_some (cs r : List Char) (h : trySep cs = some r) :
    ∃ c : Char, cs = c :: r ∧ (c = '/' ∨ c = '-') := by
  cases cs with
  | nil => cases h
  | cons c t =>
    rw [trySep] at h
    split at h
    · next hcond =>
      injection h with hp
      exact ⟨c, by rw [hp], by simpa using hcond⟩
    · cases h

theorem trySep_of (c : Char) (r : List Char) (h : c = '/' ∨ c = '-') :
    trySep (c :: r) = some r := by
  rw [trySep, if_pos (by simpa using h)]

theorem matchYear_isSome_iff (r : List Char) :
    (matchYear r).isSome = true ↔ ∃ y rest : List Char, r = y ++ rest ∧
      2 ≤ y.length ∧ y.length ≤ 4 ∧ y.all Char.isDigit = true := by
  rw [matchYear, isSome_map, isSome_orElse, isSome_orElse]
  constructor
  · rintro (h | (h | h)) <;>
      · rw [Option.isSome_iff_exists] at h
        obtain ⟨p, hp⟩ := h
        obtain ⟨d, hcat, hlen, hdig, _⟩ := tryNum_eq_some _ _ _ hp
        exact ⟨d, p.2, hcat, by omega, by omega, hdig⟩
  · rintro ⟨y, rest, rfl, h2, h4, hdig⟩
    interval_cases hy : y.length
    · right; right
      rw [tryNum_of_pre y rest 2 hy hdig]
      rfl
    · right; left
      rw [tryNum_of_pre y rest 3 hy hdig]
      rfl
    · left
      rw [tryNum_of_pre y rest 4 hy hdig]
      rfl

theorem matchG2_isSome_iff (r : List Char) :
    (matchG2 r).isSome = true ↔
      ∃ (b : List Char) (c2 : Char) (y rest : List Char),
        r = b ++ c2 :: (y ++ rest) ∧ 1 ≤ b.length ∧ b.length ≤ 2 ∧
          b.all Char.isDigit = true ∧ (c2 = '/' ∨ c2 = '-') ∧
          2 ≤ y.length ∧ y.length ≤ 4 ∧ y.all Char.isDigit = true := by
  rw [matchG2, isSome_orElse]
  constructor
  · rintro (h | h) <;>
      · rw [isSome_bind] at h
        obtain ⟨p, hp, h⟩ := h
        obtain ⟨b, hcat, hlen, hdig, _⟩ := tryNum_eq_some _ _ _ hp
        rw [isSome_bind] at h
        obtain ⟨r3, hr3, h⟩ := h
        obtain ⟨c2, hc2, hsep⟩ := trySep_eq_some _ _ hr3
        rw [isSome_map, matchYear_isSome_iff] at h
        obtain ⟨y, rest, hy, h2, h4, hydig⟩ := h
        exact ⟨b, c2, y, rest, by rw [hcat, hc2, hy], by omega, by omega, hdig,
          hsep, h2, h4, hydig⟩
  · rintro ⟨b, c2, y, rest, rfl, h1, h2, hdig, hsep, hy2, hy4, hydig⟩
    have hyear : (matchYear (y ++ rest)).isSome = true :=
      (matchYear_isSome_iff (y ++ rest)).mpr ⟨y, rest, rfl, hy2, hy4, hydig⟩
    have hy : ∃ v, matchYear (y ++ rest) = some v := Option.isSome_iff_exists.mp hyear
    obtain ⟨v, hv⟩ := hy
    interval_cases hb : b.length
    · right
      rw [isSome_bind]
      refine ⟨(digitsVal b, c2 :: (y ++ rest)), tryNum_of_pre b _ 1 hb hdig, ?_⟩
      rw [isSome_bind]
      refine ⟨y ++ rest, trySep_of c2 _ hsep, ?_⟩
      rw [isSome_map, hv]
      rfl
    · left
      rw [isSome_bind]
      refine ⟨(digitsVal b, c2 :: (y ++ rest)), tryNum_of_pre b _ 2 hb hdig, ?_⟩
      rw [isSome_bind]
      refine ⟨y ++ rest, trySep_of c2 _ hsep, ?_⟩
      rw [isSome_map, hv]
      rfl

theorem matchDatePrefix_isSome_iff (cs : List Char) :
    (matchDatePrefix cs).isSome = true ↔ dateShapedSpec cs := by
  rw [matchDatePrefix, isSome_orElse]
  constructor
  · rintro (h | h) <;>
      · rw [isSome_bind] at h
        obtain ⟨p, hp, h⟩ := h
        obtain ⟨a, hcat, hlen, hdig, _⟩ := tryNum_eq_some _ _ _ hp
        rw [isSome_bind] at h
        obtain ⟨r2, hr2, h⟩ := h
        obtain ⟨c1, hc1, hsep1⟩ := trySep_eq_some _ _ hr2
        rw [isSome_map, matchG2_isSome_iff] at h
        obtain ⟨b, c2, y, rest, hb, h1, h2, hbdig, hsep2, hy2, hy4, hydig⟩ := h
        exact ⟨a, b, y, rest, c1, c2, by rw [hcat, hc1, hb], by omega, by omega,
          hdig, hsep1, h1, h2, hbdig, hsep2, hy2, hy4, hydig⟩
  · rintro ⟨a, b, y, rest, c1, c2, rfl, ha1, ha2, hadig, hsep1, hb1, hb2, hbdig,
      hsep2, hy2, hy4, hydig⟩
    have hg2 : (matchG2 (b ++ c2 :: (y ++ rest))).isSome = true :=
      (matchG2_isSome_iff _).mpr ⟨b, c2, y, rest, rfl, hb1, hb2, hbdig, hsep2,
        hy2, hy4, hydig⟩
    have hg2e : ∃ q, matchG2 (b ++ c2 :: (y ++ rest)) = some q :=
      Option.isSome_iff_exists.mp hg2
    obtain ⟨q, hq⟩ := hg2e
    interval_cases ha : a.length
    · right
      rw [isSome_bind]
      refine ⟨(digitsVal a, c1 :: (b ++ c2 :: (y ++ rest))),
        tryNum_of_pre a _ 1 ha hadig, ?_⟩
      rw [isSome_bind]
      refine ⟨b ++ c2 :: (y ++ rest), trySep_of c1 _ hsep1, ?_⟩
      rw [isSome_map, hq]
      rfl
    · left
      rw [isSome_bind]
      refine ⟨(digitsVal a, c1 :: (b ++ c2 :: (y ++ rest))),
        tryNum_of_pre a _ 2 ha hadig, ?_⟩
      rw [isSome_bind]
      refine ⟨b ++ c2 :: (y ++ rest), trySep_of c1 _ hsep1, ?_⟩
      rw [isSome_map, hq]
      rfl

theorem firstRowLooksLikeData_iff (headers : Row) :
    firstRowLooksLikeData headers = true ↔ firstCellDateShaped headers := by
  cases headers with
  | nil => simp [firstRowLooksLikeData, firstCellDateShaped]
  | cons c t =>
    cases c with
    | none => simp [firstRowLooksLikeData, firstCellDateShaped]
    | some s =>
      rw [firstRowLooksLikeData]
      by_cases hs : s = ""
      · subst hs
        simp [firstCellDateShaped]
      · rw [if_neg hs, matchDatePrefix_isSome_iff]
        constructor
        · intro h
          exact ⟨s, rfl, hs, h⟩
        · rintro ⟨s2, hs2, _, hshape⟩
          injection hs2 with hs2
          injection hs2 with hs2
          rw [hs2]
          exact hshape

/-- C3: the Page-Sequence Assembler's per-page mapping decision.  With a
    nonempty previous map: the page is treated as a continuation — reusing
    the previous map restricted to indices below ncols instead of fresh
    header resolution — exactly when ncols is at least the previous map's
    span and the first cell is date-shaped (one-or-two digits, slash or
    dash, one-or-two digits, slash or dash, two-to-four digits, stated here
    as the explicit dateShapedSpec decomposition);
    otherwise a fresh map is resolved, and the restricted previous map is
    preferred over the fresh map exactly when the fresh map fails
    isTransactionComplete and the previous span fits within ncols.  With no
    previous map, resolution is always fresh. -/
theorem c3_continuation_decision (lm : ColMap) (headers : Row) (hlm : lm ≠ []) :
    (headers.length ≥ lm.length ∧ firstCellDateShaped headers →
      pageColMap (some lm) headers = restrictMap lm headers.length) ∧
    (¬ (headers.length ≥ lm.length ∧ firstCellDateShaped headers) →
      (transactionMapComplete (freshMap headers) = true ∨
          headers.length < lm.length →
        pageColMap (some lm) headers = freshMap headers) ∧
      (transactionMapComplete (freshMap headers) = false ∧
          lm.length ≤ headers.length →
        pageColMap (some lm) headers = restrictMap lm headers.length)) ∧
    pageColMap none headers = freshMap headers := by
  refine ⟨?_, ?_, rfl⟩
  · rintro ⟨hge, hshape⟩
    rw [pageColMap,
      if_pos ⟨hlm, hge, (firstRowLooksLikeData_iff headers).mpr hshape⟩]
  · intro hnot
    have hfrd : ¬ (lm ≠ [] ∧ headers.length ≥ lm.length ∧
        firstRowLooksLikeData headers = true) := by
      rintro ⟨_, hge, hfr⟩
      exact hnot ⟨hge, (firstRowLooksLikeData_iff headers).mp hfr⟩
    constructor
    · rintro (hcomp | hlt)
      · rw [pageColMap, if_neg hfrd, if_neg]
        rintro ⟨_, _, hncomp⟩
        exact hncomp hcomp
      · rw [pageColMap, if_neg hfrd, if_neg]
        rintro ⟨_, hge, _⟩
        omega
    · rintro ⟨hncomp, hle⟩
      rw [pageColMap, if_neg hfrd, if_pos ⟨hlm, hle, by rw [hncomp]; simp⟩]

/-- C3 witness: the decision applied to the concrete continuation page of
    the end-to-end example, under the five-column map page 1 resolved. -/
theorem c3_witness :
    pageColMap
      (some [(0, "Date"), (1, "Remitter"), (2, "Description"), (3, "Debit"),
        (4, "Credit")])
      [some "02/12/2025", some "Partner B", some "Payment 2", some "200,000",
        some ""] =
    restrictMap
      [(0, "Date"), (1, "Remitter"), (2, "Description"), (3, "Debit"),
        (4, "Credit")] 5 :=
  (c3_continuation_decision
    [(0, "Date"), (1, "Remitter"), (2, "Description"), (3, "Debit"),
      (4, "Credit")]
    [some "02/12/2025", some "Partner B", some "Payment 2", some "200,000",
      some ""] (by decide)).1
    ⟨by decide,
      ⟨"02/12/2025", rfl, by decide,
        (matchDatePrefix_isSome_iff (stripChars "02/12/2025".data)).mp
          (by decide)⟩⟩

/-! ## Amount-parser lemmas -/

theorem takeWhile_append_of_all {p : Char → Bool} (pre rest : List Char)
    (h : ∀ c ∈ pre, p c = true) :
    (pre ++ rest).takeWhile p = pre ++ rest.takeWhile p := by
  induction pre with
  | nil => rfl
  | cons x t ih =>
    have hx := h x (List.mem_cons_self x t)
    rw [List.cons_append, List.takeWhile_cons, if_pos hx,
      ih (fun c hc => h c (List.mem_cons_of_mem x hc)), List.cons_append]

theorem dropWhile_append_of_all {p : Char → Bool} (pre rest : List Char)
    (h : ∀ c ∈ pre, p c = true) :
    (pre ++ rest).dropWhile p = rest.dropWhile p := by
  induction pre with
  | nil => rfl
  | cons x t ih =>
    have hx := h x (List.mem_cons_self x t)
    rw [List.cons_append, List.dropWhile_cons, if_pos hx,
      ih (fun c hc => h c (List.mem_cons_of_mem x hc))]

theorem sep_cases {c : Char} (h : isSepChar c = true) : c = '.' ∨ c = ',' := by
  rw [isSepChar, Bool.or_eq_true, decide_eq_true_eq, decide_eq_true_eq] at h
  exact h

theorem sep_not_digit {c : Char} (h : isSepChar c = true) : c.isDigit = false := by
  rcases sep_cases h with rfl | rfl <;> rfl

theorem digit_not_sep {c : Char} (h : c.isDigit = true) : isSepChar c = false := by
  cases hb : isSepChar c
  · rfl
  · rw [sep_not_digit hb] at h
    cases h

theorem mem_stripChars {c : Char} {l : List Char} (h : c ∈ stripChars l) :
    c ∈ l := by
  rw [stripChars, List.mem_reverse] at h
  have h2 := (List.dropWhile_sublist Char.isWhitespace).mem h
  rw [List.mem_reverse] at h2
  exact (List.dropWhile_sublist Char.isWhitespace).mem h2

theorem decMatch_has_digit (cs : List Char) (h : decMatch cs = true) :
    ∃ c ∈ cs, c.isDigit = true := by
  rw [decMatch] at h
  rcases hrev : cs.reverse with _ | ⟨d1, rest1⟩
  · rw [hrev] at h; simp at h
  · rcases rest1 with _ | ⟨c, rest⟩
    · rw [hrev] at h; simp at h
    · rw [hrev, Bool.and_eq_true] at h
      have hd1 : d1 ∈ cs := by
        rw [← List.mem_reverse, hrev]
        exact List.mem_cons_self _ _
      exact ⟨d1, hd1, h.1⟩

theorem decMatch_count_iff (cs : List Char)
    (hall : cs.all (fun c => c.isDigit || isSepChar c) = true) :
    (decMatch cs = true ∧ cs.count '.' + cs.count ',' = 1) ↔
      decimalShapeSpec cs := by
  constructor
  · rintro ⟨hdm, hcount⟩
    rw [decMatch] at hdm
    rcases hrev : cs.reverse with _ | ⟨d1, rest1⟩
    · rw [hrev] at hdm; simp at hdm
    rcases rest1 with _ | ⟨c, rest⟩
    · rw [hrev] at hdm; simp at hdm
    rw [hrev, Bool.and_eq_true] at hdm
    obtain ⟨hd1, hor⟩ := hdm
    rw [Bool.or_eq_true] at hor
    rcases hor with hca | hcb
    · rw [Bool.and_eq_true] at hca
      obtain ⟨hsep, _⟩ := hca
      refine ⟨hcount, rest.reverse, [d1], c, ?_, hsep, by simp, by simp,
        by simp [hd1]⟩
      rw [← List.reverse_reverse cs, hrev]
      simp
    · rcases hrest : rest with _ | ⟨c2, rest2⟩
      · rw [hrest] at hcb; simp at hcb
      · rw [hrest] at hcb
        rw [Bool.and_eq_true, Bool.and_eq_true] at hcb
        obtain ⟨⟨hc, hc2⟩, _⟩ := hcb
        refine ⟨hcount, rest2.reverse, [c, d1], c2, ?_, hc2, by simp, by simp,
          by simp [hc, hd1]⟩
        rw [← List.reverse_reverse cs, hrev, hrest]
        simp
  · rintro ⟨hcount, pre, suf, c, rfl, hsep, hne, hlen, hsufdig⟩
    refine ⟨?_, hcount⟩
    rw [decMatch]
    have hpredec : pre.reverse.all isDecPreChar = true := by
      rw [List.all_eq_true]
      intro x hx
      have hx2 : x ∈ pre := List.mem_reverse.mp hx
      have hmem := List.all_eq_true.mp hall x
        (List.mem_append_left _ hx2)
      rw [isDecPreChar]
      exact hmem
    rcases suf with _ | ⟨s1, suf2⟩
    · exact absurd rfl hne
    rcases suf2 with _ | ⟨s2, suf3⟩
    · have hs1 : s1.isDigit = true := by simpa using hsufdig
      have hrev : (pre ++ c :: [s1]).reverse = s1 :: c :: pre.reverse := by simp
      rw [hrev]
      simp [hs1, hsep, hpredec]
    rcases suf3 with _ | ⟨s3, suf4⟩
    · rw [List.all_cons, List.all_cons, Bool.and_eq_true, Bool.and_eq_true]
        at hsufdig
      obtain ⟨hs1, hs2, _⟩ := hsufdig
      have hrev : (pre ++ c :: [s1, s2]).reverse = s2 :: s1 :: c :: pre.reverse := by
        simp
      rw [hrev]
      simp [hs1, hs2, hsep, hpredec]
    · exfalso
      simp only [List.length_cons, List.length_append] at hlen
      omega

theorem map_sep_eq_self_of_digits (l : List Char) (h : l.all Char.isDigit = true) :
    l.map (fun c => if c = ',' then '.' else c) = l := by
  induction l with
  | nil => rfl
  | cons x t ih =>
    rw [List.all_cons, Bool.and_eq_true] at h
    have hx : ¬ x = ',' := by
      intro hc
      subst hc
      exact absurd h.1 (by decide)
    rw [List.map_cons, if_neg hx, ih h.2]

theorem mkRat_decimal_value (a b k : Nat) :
    (mkRat (a * 10 ^ k + b) (10 ^ k) : ℚ) =
      (a : ℚ) + (b : ℚ) / (10 : ℚ) ^ k := by
  rw [Rat.mkRat_eq_div]
  have h10 : ((10 : ℚ) ^ k) ≠ 0 := by positivity
  push_cast
  field_simp

theorem parseVnd_decimal_branch (cs : List Char) (neg : Bool)
    (hall : cs.all (fun c => c.isDigit || isSepChar c) = true)
    (hds : decimalShapeSpec cs) :
    parseVndStrCleaned cs neg = (if neg then -1 else 1) * decimalValueSpec cs := by
  obtain ⟨hcount, pre, suf, c, hcs, hsep, hne, hlen, hsufdig⟩ := hds
  subst hcs
  have hcsep := sep_cases hsep
  have hpre : pre.all Char.isDigit = true := by
    rw [List.all_eq_true]
    intro x hx
    by_contra hxd
    have hxor := List.all_eq_true.mp hall x (List.mem_append_left _ hx)
    have hxsep : isSepChar x = true := by
      rw [Bool.or_eq_true] at hxor
      rcases hxor with h | h
      · exact absurd h hxd
      · exact h
    have h1 : 1 ≤ pre.count '.' + pre.count ',' := by
      rcases sep_cases hxsep with rfl | rfl
      · have := List.count_pos_iff.mpr hx
        omega
      · have := List.count_pos_iff.mpr hx
        omega
    have h2 : 1 ≤ (c :: suf).count '.' + (c :: suf).count ',' := by
      rcases hcsep with rfl | rfl
      · rw [List.count_cons_self]
        omega
      · rw [List.count_cons_self]
        omega
    rw [List.count_append, List.count_append] at hcount
    omega
  have hdot_pre : ∀ x ∈ pre, x ≠ '.' := by
    intro x hx he
    have := List.all_eq_true.mp hpre x hx
    rw [he] at this
    exact absurd this (by decide)
  have hdot_suf : ∀ x ∈ suf, x ≠ '.' := by
    intro x hx he
    have := List.all_eq_true.mp hsufdig x hx
    rw [he] at this
    exact absurd this (by decide)
  have hbool : (decMatch (pre ++ c :: suf) &&
      ((pre ++ c :: suf).count '.' + (pre ++ c :: suf).count ',' == 1)) = true := by
    rw [Bool.and_eq_true]
    refine ⟨((decMatch_count_iff _ hall).mpr
      ⟨hcount, pre, suf, c, rfl, hsep, hne, hlen, hsufdig⟩).1,
      by simpa using hcount⟩
  rw [parseVndStrCleaned, if_pos hbool]
  have hcdot : (if c = ',' then '.' else c) = '.' := by
    rcases hcsep with rfl | rfl <;> simp
  have hmap : (pre ++ c :: suf).map (fun c => if c = ',' then '.' else c) =
      pre ++ '.' :: suf := by
    rw [List.map_append, List.map_cons, map_sep_eq_self_of_digits pre hpre,
      map_sep_eq_self_of_digits suf hsufdig, hcdot]
  have hdw : (pre ++ '.' :: suf).dropWhile (fun c => c ≠ '.') = '.' :: suf := by
    rw [dropWhile_append_of_all pre ('.' :: suf)
      (fun x hx => decide_eq_true (hdot_pre x hx))]
    rw [List.dropWhile_cons]
    simp
  have htw : (pre ++ '.' :: suf).takeWhile (fun c => c ≠ '.') = pre := by
    rw [takeWhile_append_of_all pre ('.' :: suf)
      (fun x hx => decide_eq_true (hdot_pre x hx))]
    rw [List.takeWhile_cons]
    simp
  have hfloat : floatLit (pre ++ '.' :: suf) =
      some (mkRat (digitsVal pre * 10 ^ suf.length + digitsVal suf)
        (10 ^ suf.length)) := by
    simp only [floatLit, hdw, htw]
    rw [if_pos]
    simp [hne, hpre, hsufdig]
  rw [hmap]
  simp only [hfloat]
  have hvspec : decimalValueSpec (pre ++ c :: suf) =
      (digitsVal pre : ℚ) + (digitsVal suf : ℚ) / (10 : ℚ) ^ suf.length := by
    rw [decimalValueSpec]
    have htw2 : (pre ++ c :: suf).takeWhile (fun x => !isSepChar x) = pre := by
      rw [takeWhile_append_of_all pre (c :: suf)
        (fun x hx => by rw [digit_not_sep (List.all_eq_true.mp hpre x hx)]; rfl)]
      rw [List.takeWhile_cons]
      simp [hsep]
    have hdw2 : (pre ++ c :: suf).dropWhile (fun x => !isSepChar x) = c :: suf := by
      rw [dropWhile_append_of_all pre (c :: suf)
        (fun x hx => by rw [digit_not_sep (List.all_eq_true.mp hpre x hx)]; rfl)]
      rw [List.dropWhile_cons]
      simp [hsep]
    rw [htw2, hdw2]
    rfl
  rw [hvspec, mkRat_decimal_value]
  cases neg
  · simp
  · simp

theorem parseVnd_thousands_branch (cs : List Char) (neg : Bool)
    (hall : cs.all (fun c => c.isDigit || isSepChar c) = true)
    (hnds : ¬ decimalShapeSpec cs) (hany : cs.any Char.isDigit = true) :
    parseVndStrCleaned cs neg =
      (if neg then -1 else 1) * strippedIntValueSpec cs := by
  have hbool : (decMatch cs && (cs.count '.' + cs.count ',' == 1)) = false := by
    by_contra hc
    have hb : (decMatch cs && (cs.count '.' + cs.count ',' == 1)) = true := by
      cases hx : (decMatch cs && (cs.count '.' + cs.count ',' == 1))
      · exact absurd hx hc
      · rfl
    rw [Bool.and_eq_true] at hb
    exact hnds ((decMatch_count_iff cs hall).mp ⟨hb.1, by simpa using hb.2⟩)
  rw [parseVndStrCleaned, if_neg (by simp [hbool]), thousandsPath]
  have hdig : (cs.filter (fun c => !isSepChar c)).all Char.isDigit = true := by
    rw [List.all_eq_true]
    intro x hx
    have hxcs : x ∈ cs := List.mem_of_mem_filter hx
    have hxns := List.of_mem_filter hx
    have hor := List.all_eq_true.mp hall x hxcs
    rw [Bool.or_eq_true] at hor
    rcases hor with h | h
    · exact h
    · rw [h] at hxns
      cases hxns
  have hnempty : cs.filter (fun c => !isSepChar c) ≠ [] := by
    rw [List.any_eq_true] at hany
    obtain ⟨d, hd, hddig⟩ := hany
    intro hnil
    have : d ∈ cs.filter (fun c => !isSepChar c) :=
      List.mem_filter.mpr ⟨hd, by rw [digit_not_sep hddig]; rfl⟩
    rw [hnil] at this
    cases this
  have hnodot : (cs.filter (fun c => !isSepChar c)).dropWhile
      (fun c => c ≠ '.') = [] := by
    rw [List.dropWhile_eq_nil_iff]
    intro x hx
    have hxns := List.of_mem_filter hx
    refine decide_eq_true (fun he => ?_)
    rw [he] at hxns
    cases hxns
  have hfl : floatLit (cs.filter (fun c => !isSepChar c)) =
      some ((digitsVal (cs.filter (fun c => !isSepChar c)) : ℚ)) := by
    simp only [floatLit, hnodot]
    rw [if_pos]
    simp [hnempty, hdig]
  simp only [hfl, strippedIntValueSpec]
  cases neg
  · simp
  · simp

theorem parseVndStrCleaned_no_digit (cs : List Char) (neg : Bool)
    (h : ∀ c ∈ cs, ¬ c.isDigit = true) : parseVndStrCleaned cs neg = 0 := by
  have hdm : decMatch cs = false := by
    cases hb : decMatch cs
    · rfl
    · obtain ⟨c, hc, hcd⟩ := decMatch_has_digit cs hb
      exact absurd hcd (h c hc)
  rw [parseVndStrCleaned, if_neg (by simp [hdm]), thousandsPath]
  rcases hds : cs.filter (fun c => !isSepChar c) with _ | ⟨d, t⟩
  · simp [hds, floatLit]
  · have hd : d ∈ cs := List.mem_of_mem_filter
      (by rw [hds]; exact List.mem_cons_self d t)
    have hdnd : d.isDigit = false := by
      cases hb : d.isDigit
      · rfl
      · exact absurd hb (h d hd)
    have hnodot : (d :: t).dropWhile (fun c => c ≠ '.') = [] := by
      rw [List.dropWhile_eq_nil_iff]
      intro x hx
      have hxf : x ∈ cs.filter (fun c => !isSepChar c) := by
        rw [hds]; exact hx
      have hxns := List.of_mem_filter hxf
      refine decide_eq_true (fun he => ?_)
      rw [he] at hxns
      cases hxns
    have hfl : floatLit (d :: t) = none := by
      simp only [floatLit, hnodot]
      rw [if_neg]
      simp [hdnd]
    simp [hds, hfl]

/-- C4: the amount dichotomy of _parse_vnd_amount.  For every amount string
    whose cleaned form is made of digits and separators only (with at least
    one digit): when the cleaned string has exactly one separator followed
    by one or two trailing digits the decimal value is returned, otherwise
    every separator is stripped and the remaining digits are read as an
    integer; a leading minus negates either result.  The concrete
    instances of the specification follow: the three spellings of one
    million, the two decimal forms, and a negated amount. -/
theorem c4_normalize_amount_dichotomy :
    (∀ s : String, wellFormedAmount s →
      (decimalShapeSpec (cleanedAmount s) →
        parseVndAmount (.strV s) = signOf s * decimalValueSpec (cleanedAmount s)) ∧
      (¬ decimalShapeSpec (cleanedAmount s) →
        parseVndAmount (.strV s) =
          signOf s * strippedIntValueSpec (cleanedAmount s))) ∧
    parseVndAmount (.strV "1.000.000") = 1000000 ∧
    parseVndAmount (.strV "1,000,000") = 1000000 ∧
    parseVndAmount (.strV "1000000") = 1000000 ∧
    parseVndAmount (.strV "123.45") = 12345 / 100 ∧
    parseVndAmount (.strV "123,4") = 1234 / 10 ∧
    parseVndAmount (.strV "-1.000.000") = -1000000 := by
  have hex1 : parseVndAmount (.strV "123.45") = (12345 : ℚ) / 100 := by
    have h1 : parseVndAmount (.strV "123.45") = mkRat 12345 100 := by decide
    rw [h1, Rat.mkRat_eq_div]
    norm_num
  have hex2 : parseVndAmount (.strV "123,4") = (1234 : ℚ) / 10 := by
    have h1 : parseVndAmount (.strV "123,4") = mkRat 1234 10 := by decide
    rw [h1, Rat.mkRat_eq_div]
    norm_num
  refine ⟨?_, by decide, by decide, by decide, hex1, hex2, by decide⟩
  intro s hwf
  obtain ⟨hall, hany⟩ := hwf
  have hs' : ¬ stripChars s.data = [] := by
    intro hnil
    rw [cleanedAmount, hnil] at hany
    simp at hany
  have hexp : parseVndAmount (.strV s) =
      parseVndStrCleaned (cleanedAmount s)
        (decide ((stripChars s.data).head? = some '-')) := by
    simp only [parseVndAmount]
    rw [if_neg hs']
    rfl
  have hsign : ∀ X : ℚ,
      (if (decide ((stripChars s.data).head? = some '-')) = true then (-1 : ℚ)
        else 1) * X = signOf s * X := by
    intro X
    rw [signOf]
    by_cases hneg : (stripChars s.data).head? = some '-'
    · rw [if_pos hneg, if_pos (by simp [hneg])]
    · rw [if_neg hneg, if_neg (by simp [hneg])]
  constructor
  · intro hds
    rw [hexp, parseVnd_decimal_branch _ _ hall hds, hsign]
  · intro hnds
    rw [hexp, parseVnd_thousands_branch _ _ hall hnds hany, hsign]

/-- C4 witness: the dichotomy applied to two concrete well-formed inputs,
    one on each side of the split. -/
theorem c4_witness :
    wellFormedAmount " 2.500.000 VND " ∧
      parseVndAmount (.strV " 2.500.000 VND ") =
        signOf " 2.500.000 VND " *
          strippedIntValueSpec (cleanedAmount " 2.500.000 VND ") :=
  ⟨by decide,
    (c4_normalize_amount_dichotomy.1 " 2.500.000 VND " (by decide)).2
      (fun hds => by
        have := ((decMatch_count_iff (cleanedAmount " 2.500.000 VND ")
          (by decide)).mpr hds).2
        revert this
        decide)⟩

/-- C5: normalizeAmount is total over every input kind the DataFrame can
    feed it — None, NaN, ints, floats, strings — and returns 0.0 for
    empty, blank and unparseable input: in particular every string with no
    digit at all, and the malformed concrete strings shown. -/
theorem c5_normalize_amount_total :
    parseVndAmount .noneV = 0 ∧
    parseVndAmount .nanV = 0 ∧
    (∀ n : ℤ, parseVndAmount (.intV n) = (n : ℚ)) ∧
    (∀ q : ℚ, parseVndAmount (.floatV q) = q) ∧
    parseVndAmount (.strV "") = 0 ∧
    parseVndAmount (.strV "   ") = 0 ∧
    (∀ s : String, (∀ c ∈ s.data, ¬ c.isDigit = true) →
      parseVndAmount (.strV s) = 0) ∧
    parseVndAmount (.strV "abc") = 0 ∧
    parseVndAmount (.strV "12-34") = 0 ∧
    parseVndAmount (.strV "--") = 0 := by
  refine ⟨rfl, rfl, fun n => rfl, fun q => rfl, by decide, by decide, ?_,
    by decide, by decide, by decide⟩
  intro s h
  by_cases hnil : stripChars s.data = []
  · simp only [parseVndAmount]
    rw [if_pos hnil]
  · simp only [parseVndAmount]
    rw [if_neg hnil]
    apply parseVndStrCleaned_no_digit
    intro c hc
    apply h
    have h1 : c ∈ (stripChars s.data).filter isKeptChar :=
      (List.dropWhile_sublist (fun c => c = '-')).mem hc
    have h2 : c ∈ stripChars s.data := List.mem_of_mem_filter h1
    exact mem_stripChars h2

/-- C5 witness: the no-digit clause applied to a concrete symbol-only
    string. -/
theorem c5_witness : parseVndAmount (.strV "₫₫ --") = 0 :=
  c5_normalize_amount_total.2.2.2.2.2.2.1 "₫₫ --" (by decide)

end ExpParser
